import Mathlib

set_option maxHeartbeats 1000000
set_option maxRecDepth 4000

/-!
Shallow embedding of the transactional staging store (TemporaryStore) from
sui-execution/suivm/sui-adapter/src/temporary_store.rs and of the Rosetta
account balance handler from crates/sui-rosetta/src/account.rs, together with
theorems checking the natural-language specification against the code.

ObjectID, digests, addresses and module names are modelled as Nat; machine
integers (u64) are Nat with explicit reduction modulo 2 ^ 64 where the code
can wrap. BTreeMap is modelled as a key-sorted association list with the
operations below. Fallible code (panics, unwraps, asserts) returns Option,
with none standing for the panic.
-/

/-- Lookup in an association-list map (first matching key wins, which agrees
with the sorted-key representation of BTreeMap). -/
def mlookup {α : Type} : List (Nat × α) → Nat → Option α
  | [], _ => none
  | (k, v) :: t, x => if x = k then some v else mlookup t x

/-- Insert-or-replace keeping keys sorted, mirroring BTreeMap insert. -/
def minsert {α : Type} : List (Nat × α) → Nat → α → List (Nat × α)
  | [], k, v => [(k, v)]
  | (k1, v1) :: t, k, v =>
    if k < k1 then (k, v) :: (k1, v1) :: t
    else if k = k1 then (k, v) :: t
    else (k1, v1) :: minsert t k v

/-- Key membership, mirroring BTreeMap contains_key. -/
def mcontains {α : Type} (m : List (Nat × α)) (k : Nat) : Bool :=
  (mlookup m k).isSome

/-- Key list of a map, mirroring BTreeMap keys (in order for sorted maps). -/
def mkeys {α : Type} (m : List (Nat × α)) : List Nat :=
  m.map Prod.fst

/-- The sortedness invariant of the BTreeMap representation: keys strictly
increase along the list. -/
def msorted {α : Type} : List (Nat × α) → Bool
  | [] => true
  | _ :: [] => true
  | p :: q :: t => decide (p.1 < q.1) && msorted (q :: t)

/-- Merge a map into another, later entries overriding, mirroring
BTreeMap extend. -/
def mextend {α : Type} (l m : List (Nat × α)) : List (Nat × α) :=
  m.foldl (fun acc kv => minsert acc kv.1 kv.2) l

/-- Lookup returning the value of the last matching entry; used to describe
mextend on arbitrary (possibly duplicated) entry lists. -/
def lastLookup {α : Type} : List (Nat × α) → Nat → Option α
  | [], _ => none
  | (k, v) :: t, x =>
    match lastLookup t x with
    | some w => some w
    | none => if x = k then some v else none

/-- Sequence an option-producing function over a list, stopping at the first
failure; models a loop whose body can panic. -/
def omapM {α β : Type} (f : α → Option β) : List α → Option (List β)
  | [] => some []
  | x :: t =>
    match f x, omapM f t with
    | some y, some r => some (y :: r)
    | _, _ => none

/-! Core data model, translated from sui-types as used by temporary_store.rs:
Owner, Object (id, version, digest, previous_transaction, storage_rebate,
owner, data), the backing store interface, gas cost summary and the metadata
of dynamically loaded child objects. -/

inductive Owner where
  | addressOwner (addr : Nat)
  | objectOwner (parent : Nat)
  | shared (initialSharedVersion : Nat)
  | immutable
deriving DecidableEq, Repr

inductive ObjData where
  | move (structTag : Nat) (contents : List Nat)
  | package (modules : List (Nat × List Nat))
deriving DecidableEq, Repr

structure Object where
  objId : Nat
  version : Nat
  digest : Nat
  previousTransaction : Nat
  storageRebate : Nat
  owner : Owner
  data : ObjData
deriving DecidableEq, Repr

/-- An object is immutable exactly when its owner is the Immutable variant. -/
def Object.isImmutable (o : Object) : Bool :=
  match o.owner with
  | Owner.immutable => true
  | _ => false

def Object.isPackage (o : Object) : Bool :=
  match o.data with
  | ObjData.package _ => true
  | _ => false

/-- Modelled from the spec: the per-object metering size used by
written_objects_size and storage gas tracking (object_size_for_gas_metering
is computed outside this file from the serialized object). Any concrete
size function works for the claims; we take the content length. -/
def Object.sizeForGasMetering (o : Object) : Nat :=
  match o.data with
  | ObjData.move _ contents => contents.length
  | ObjData.package modules => (modules.map (fun m => m.2.length)).sum

/-- Read-only backing store interface (get_object and get_object_by_key). -/
structure BackingStore where
  getObject : Nat → Option Object
  getObjectByKey : Nat → Nat → Option Object

structure GasCostSummary where
  computationCost : Nat
  storageCost : Nat
  storageRebate : Nat
  nonRefundableStorageFee : Nat
deriving DecidableEq, Repr

structure LoadedChildObjectMetadata where
  version : Nat
  digest : Nat
  storageRebate : Nat
deriving DecidableEq, Repr

inductive ExecErr where
  | invariantViolation (msg : String)
deriving DecidableEq, Repr

inductive SuiErr where
  | executionInvariantViolation
  | badObjectType (msg : String)
deriving DecidableEq, Repr

/-- The transactional staging store, with the ExecutionResultsV2 accumulator
fields (written_objects, created_object_ids, deleted_object_ids,
objects_modified_at, user_events) inlined. Maps are key-sorted association
lists mirroring BTreeMap; sets are plain id lists with membership semantics.
The backing store is passed separately to the operations that consult it. -/
structure TemporaryStore where
  txDigest : Nat
  lamportTimestamp : Nat
  inputObjects : List (Nat × Object)
  mutableInputRefs : List (Nat × (Nat × Nat))
  writtenObjects : List (Nat × Object)
  createdObjectIds : List Nat
  deletedObjectIds : List Nat
  objectsModifiedAt : List (Nat × (Nat × Nat))
  userEvents : List Nat
  loadedChildObjects : List (Nat × LoadedChildObjectMetadata)
deriving DecidableEq, Repr

/-! Operations of TemporaryStore, translated line by line from
temporary_store.rs. Option models panics (unwrap, assert, index). -/

/-- read_object: written post-image first, else input pre-image, else none.
The debug assertion that the id was not deleted is release-erased. The
backing store is not an argument: read_object never consults it. -/
def readObject (ts : TemporaryStore) (id : Nat) : Option Object :=
  match mlookup ts.writtenObjects id with
  | some o => some o
  | none => mlookup ts.inputObjects id

/-- mutate_input_object: unwraps the mutable input ref of the object id,
records the pre-image ref in objects_modified_at and overwrites the written
post-image. -/
def mutateInputObject (ts : TemporaryStore) (object : Object) : Option TemporaryStore :=
  match mlookup ts.mutableInputRefs object.objId with
  | none => none
  | some inputRef =>
    some { ts with
      objectsModifiedAt := minsert ts.objectsModifiedAt object.objId inputRef,
      writtenObjects := minsert ts.writtenObjects object.objId object }

/-- ensure_active_inputs_mutated: for every mutable input id not yet in
objects_modified_at, push the (cloned) input image through
mutate_input_object. Indexing input_objects panics on a missing id. -/
def ensureActiveInputsMutated (ts : TemporaryStore) : Option TemporaryStore :=
  match omapM (fun id => mlookup ts.inputObjects id)
      ((mkeys ts.mutableInputRefs).filter
        (fun id => ! mcontains ts.objectsModifiedAt id)) with
  | none => none
  | some toBeUpdated => toBeUpdated.foldlM (fun s object => mutateInputObject s object) ts

/-- save_loaded_child_objects collision check: every key of the incoming map
that collides with the stored map must carry an equal value (both loops of
the debug_assertions block check this same symmetric condition). -/
def childMetaAgrees (stored incoming : List (Nat × LoadedChildObjectMetadata)) : Bool :=
  incoming.all (fun kv =>
    match mlookup stored kv.1 with
    | some v2 => decide (kv.2 = v2)
    | none => true)

/-- save_loaded_child_objects: assert colliding keys carry equal metadata
(a debug-build assertion in the source), then merge with BTreeMap extend. -/
def saveLoadedChildObjects (ts : TemporaryStore)
    (loaded : List (Nat × LoadedChildObjectMetadata)) : Option TemporaryStore :=
  if childMetaAgrees ts.loadedChildObjects loaded
      && childMetaAgrees loaded ts.loadedChildObjects then
    some { ts with loadedChildObjects := mextend ts.loadedChildObjects loaded }
  else
    none

/-! Storage gas and rebate engine, translated from the collect_storage_and_rebate
section of temporary_store.rs. The GasCharger collaborator is modelled by a
pure function computing the new rebate from (new_size, old_rebate), together
with a log of the track_storage_mutation calls in call order, which lets the
theorems speak about the arguments the charger receives. -/

/-- get_input_storage_rebate: the pre-image storage rebate of a modified
object id, resolved from the input map, else the loaded-children metadata,
else a backing-store lookup at the exact expected version; the final panic is
none. Debug assertions of the source are release-erased. -/
def getInputStorageRebate (store : BackingStore) (ts : TemporaryStore)
    (id : Nat) (expectedVersion : Nat) : Option Nat :=
  match mlookup ts.inputObjects id with
  | some oldObj => some oldObj.storageRebate
  | none =>
    match mlookup ts.loadedChildObjects id with
    | some metadata => some metadata.storageRebate
    | none =>
      match store.getObjectByKey id expectedVersion with
      | some obj => some obj.storageRebate
      | none => none

/-- collect_rebate: for every modified id not in written_objects (deleted or
wrapped), call track_storage_mutation(0, old_rebate). Returns the call log. -/
def collectRebate (store : BackingStore) (ts : TemporaryStore) :
    Option (List (Nat × Nat)) :=
  ts.objectsModifiedAt.foldlM
    (fun log kv =>
      if mcontains ts.writtenObjects kv.1 then
        some log
      else
        match getInputStorageRebate store ts kv.1 kv.2.1 with
        | some storageRebate => some (log ++ [(0, storageRebate)])
        | none => none)
    []

/-- collect_storage_and_rebate: first stage the old rebates of all written
objects (0 for ids absent from objects_modified_at, i.e. created objects),
then rewrite each written object storage_rebate to
track_storage_mutation(new_size, old_rebate), then run collect_rebate.
Returns the updated store and the full call log of the charger. -/
def collectStorageAndRebate (store : BackingStore) (trackStorageMutation : Nat → Nat → Nat)
    (ts : TemporaryStore) : Option (TemporaryStore × List (Nat × Nat)) :=
  match omapM
      (fun kv =>
        match mlookup ts.objectsModifiedAt kv.1 with
        | some vd => getInputStorageRebate store ts kv.1 vd.1
        | none => some 0)
      ts.writtenObjects with
  | none => none
  | some oldStorageRebates =>
    let pairs := ts.writtenObjects.zip oldStorageRebates
    let newWritten := pairs.map (fun p =>
      (p.1.1, { p.1.2 with
        storageRebate := trackStorageMutation p.1.2.sizeForGasMetering p.2 }))
    let writtenLog := pairs.map (fun p => (p.1.2.sizeForGasMetering, p.2))
    let ts1 := { ts with writtenObjects := newWritten }
    match collectRebate store ts1 with
    | none => none
    | some rebateLog => some (ts1, writtenLog ++ rebateLog)

/-! Conservation checker, translated from get_modified_objects and
check_sui_conserved. Sums of u64 storage rebates accumulate with wrapping
addition modulo 2 ^ 64, as the release build does. -/

def u64Mod : Nat := 2 ^ 64

/-- Wrapping u64 addition. -/
def wadd (a b : Nat) : Nat := (a + b) % u64Mod

/-- get_modified_objects: for every id in objects_modified_at, its pre-image
(version, storage_rebate) and its written post-image if any; then every
written id not in objects_modified_at with no pre-image. -/
def getModifiedObjects (store : BackingStore) (ts : TemporaryStore) :
    Option (List (Nat × Option (Nat × Nat) × Option Object)) :=
  match omapM
      (fun kv =>
        match getInputStorageRebate store ts kv.1 kv.2.1 with
        | some storageRebate =>
          some (kv.1, some (kv.2.1, storageRebate), mlookup ts.writtenObjects kv.1)
        | none => none)
      ts.objectsModifiedAt with
  | none => none
  | some part1 =>
    some (part1 ++ ts.writtenObjects.filterMap
      (fun kv =>
        if mcontains ts.objectsModifiedAt kv.1 then none
        else some (kv.1, none, some kv.2)))

/-- check_sui_conserved: with simple conservation checks disabled return Ok;
otherwise accumulate the input and output storage rebates over the modified
object stream and check the two storage equalities of the gas summary. -/
def checkSuiConserved (store : BackingStore) (ts : TemporaryStore)
    (simpleConservationChecks : Bool) (gasSummary : GasCostSummary) :
    Option (Except ExecErr Unit) :=
  if !simpleConservationChecks then
    some (Except.ok ())
  else
    match getModifiedObjects store ts with
    | none => none
    | some infos =>
      let totalInputRebate := infos.foldl
        (fun acc i =>
          match i.2.1 with
          | some vr => wadd acc vr.2
          | none => acc) 0
      let totalOutputRebate := infos.foldl
        (fun acc i =>
          match i.2.2 with
          | some o => wadd acc o.storageRebate
          | none => acc) 0
      some (if gasSummary.storageCost = 0 then
        if totalInputRebate ≠ wadd (wadd totalOutputRebate gasSummary.storageRebate)
            gasSummary.nonRefundableStorageFee then
          Except.error (ExecErr.invariantViolation
            "SUI conservation failed: no storage charges in gas summary and total storage input rebate not equal to total storage output rebate")
        else Except.ok ()
      else if totalInputRebate ≠ wadd gasSummary.storageRebate
          gasSummary.nonRefundableStorageFee then
        Except.error (ExecErr.invariantViolation
          "SUI conservation failed: input rebate must flow to tx storage rebate or tx non refundable storage rebate")
      else if gasSummary.storageCost ≠ totalOutputRebate then
        Except.error (ExecErr.invariantViolation
          "SUI conservation failed: SUI charged for storage must equal storage rebate field of output objects")
      else Except.ok ())

/-- The sum of pre-image storage rebates over a modified-object stream (the
IR of the conservation claim), as an unbounded natural sum. -/
def inputRebateSum (infos : List (Nat × Option (Nat × Nat) × Option Object)) : Nat :=
  (infos.map (fun i =>
    match i.2.1 with
    | some vr => vr.2
    | none => 0)).sum

/-- The sum of post-image storage rebates over a modified-object stream (the
OR of the conservation claim), as an unbounded natural sum. -/
def outputRebateSum (infos : List (Nat × Option (Nat × Nat) × Option Object)) : Nat :=
  (infos.map (fun i =>
    match i.2.2 with
    | some o => o.storageRebate
    | none => 0)).sum

/-! Ownership authenticator, translated from get_objects_to_authenticate and
check_ownership_invariants. The worklist is a stack with its top at the head
(Rust pushes and pops at the end of the Vec); Phase B therefore conses each
pushed id, so the head is the most recently pushed id. -/

/-- Phase A: classify every input object. Gas objects are skipped; an
AddressOwner input must be owned by the sender (assert); AddressOwner and
Shared inputs become authenticated roots; Immutable inputs are deliberately
not added; ObjectOwner inputs are unreachable. -/
def phaseA (inputObjects : List (Nat × Object)) (sender : Nat)
    (gasObjs : List Nat) : Option (List Nat) :=
  inputObjects.foldlM
    (fun authenticatedObjs kv =>
      if gasObjs.contains kv.1 then
        some authenticatedObjs
      else
        match kv.2.owner with
        | Owner.addressOwner a =>
          if a = sender then some (kv.1 :: authenticatedObjs) else none
        | Owner.shared _ => some (kv.1 :: authenticatedObjs)
        | Owner.immutable => some authenticatedObjs
        | Owner.objectOwner _ => none)
    []

/-- Phase B body for one modified id: skip authenticated or gas ids; fetch
the pre-image owner from the backing store (missing object panics); push
ObjectOwner ids onto the worklist; AddressOwner and Shared are unreachable;
Immutable is legal only for a system package during an epoch change. -/
def phaseBStep (store : BackingStore) (isEpochChange : Bool)
    (isSystemPkg : Nat → Bool) (gasObjs : List Nat)
    (authenticatedObjs : List Nat) (objsToAuthenticate : List Nat)
    (id : Nat) : Option (List Nat) :=
  if authenticatedObjs.contains id || gasObjs.contains id then
    some objsToAuthenticate
  else
    match store.getObject id with
    | none => none
    | some oldObj =>
      match oldObj.owner with
      | Owner.objectOwner _ => some (id :: objsToAuthenticate)
      | Owner.addressOwner _ => none
      | Owner.shared _ => none
      | Owner.immutable =>
        if isEpochChange then
          if isSystemPkg id then some objsToAuthenticate else none
        else none

/-- get_objects_to_authenticate: Phase A over the inputs, then Phase B over
the keys of objects_modified_at, returning the worklist and the
authenticated roots. -/
def getObjectsToAuthenticate (store : BackingStore) (ts : TemporaryStore)
    (sender : Nat) (gasObjs : List Nat) (isEpochChange : Bool)
    (isSystemPkg : Nat → Bool) : Option (List Nat × List Nat) :=
  match phaseA ts.inputObjects sender gasObjs with
  | none => none
  | some authenticatedObjs =>
    match (mkeys ts.objectsModifiedAt).foldlM
        (phaseBStep store isEpochChange isSystemPkg gasObjs authenticatedObjs)
        [] with
    | none => none
    | some objsToAuthenticate => some (objsToAuthenticate, authenticatedObjs)

/-- State of the Phase C worklist walk. pushLog records every id pushed onto
the worklist from inside the loop, paired with whether that id was already a
key of the covered map at the moment of the push. -/
structure AuthState where
  worklist : List Nat
  authenticated : List Nat
  covered : List (Nat × Nat)
  pushLog : List (Nat × Bool)
deriving DecidableEq, Repr

/-- Phase C walk: pop an id; a missing pre-image is silently skipped; the
owner must be ObjectOwner(parent) (anything else panics); if the parent is
authenticated the id becomes authenticated, else if the parent is not yet
covered it is pushed; finally the id is recorded as covered by the parent.
Structural recursion on fuel; none is both panic and fuel exhaustion. -/
def authLoop (store : BackingStore) : Nat → AuthState → Option AuthState
  | _, st@{ worklist := [], .. } => some st
  | 0, _ => none
  | fuel + 1, st@{ worklist := toAuthenticate :: rest, .. } =>
    match store.getObject toAuthenticate with
    | none => authLoop store fuel { st with worklist := rest }
    | some oldObj =>
      match oldObj.owner with
      | Owner.objectOwner parent =>
        if st.authenticated.contains parent then
          authLoop store fuel
            { st with
              worklist := rest,
              authenticated := toAuthenticate :: st.authenticated,
              covered := minsert st.covered toAuthenticate parent }
        else if ! mcontains st.covered parent then
          authLoop store fuel
            { st with
              worklist := parent :: rest,
              covered := minsert st.covered toAuthenticate parent,
              pushLog := st.pushLog ++ [(parent, mcontains st.covered parent)] }
        else
          authLoop store fuel
            { st with
              worklist := rest,
              covered := minsert st.covered toAuthenticate parent }
      | _ => none

/-- check_ownership_invariants: run Phases A and B, then walk the worklist.
Returns the final instrumented state on success (the source returns Ok(())). -/
def checkOwnershipInvariants (store : BackingStore) (ts : TemporaryStore)
    (sender : Nat) (gasObjs : List Nat) (isEpochChange : Bool)
    (isSystemPkg : Nat → Bool) (fuel : Nat) : Option AuthState :=
  match getObjectsToAuthenticate store ts sender gasObjs isEpochChange isSystemPkg with
  | none => none
  | some (objectsToAuthenticate, authenticatedObjects) =>
    authLoop store fuel
      { worklist := objectsToAuthenticate,
        authenticated := authenticatedObjects,
        covered := [],
        pushLog := [] }

/-! Resource resolver and effects construction. -/

/-- get_resource candidate selection, translated structurally: the outer
match serves a found object directly; the fallback arm repeats the identical
read_object call, returns Ok(None) when it finds nothing, and otherwise
rejects a mutable candidate with ExecutionInvariantViolation. -/
def getResourceCandidate (ts : TemporaryStore) (address : Nat) :
    Except SuiErr (Option Object) :=
  match readObject ts address with
  | some x => Except.ok (some x)
  | none =>
    match readObject ts address with
    | none => Except.ok none
    | some x =>
      if !x.isImmutable then Except.error SuiErr.executionInvariantViolation
      else Except.ok (some x)

/-- get_resource: after candidate selection, a Move object whose struct tag
matches yields its contents; a tag mismatch is the assert panic and package
data is the unimplemented panic (both none). -/
def getResource (ts : TemporaryStore) (address : Nat) (structTag : Nat) :
    Option (Except SuiErr (Option (List Nat))) :=
  match getResourceCandidate ts address with
  | Except.error e => some (Except.error e)
  | Except.ok none => some (Except.ok none)
  | Except.ok (some object) =>
    match object.data with
    | ObjData.move tag contents =>
      if tag = structTag then some (Except.ok (some contents)) else none
    | ObjData.package _ => none

/-- Modelled from the spec: update_version_and_previous_tx (a method of the
ExecutionResultsV2 accumulator defined outside this repository) stamps every
written object with the transaction Lamport version and the tx digest. -/
def updateVersionAndPreviousTx (ts : TemporaryStore) : TemporaryStore :=
  { ts with
    writtenObjects := ts.writtenObjects.map
      (fun kv => (kv.1, { kv.2 with
        version := ts.lamportTimestamp,
        previousTransaction := ts.txDigest })) }

/-- The committable snapshot produced by into_inner. -/
structure InnerTemporaryStore where
  inputObjects : List (Nat × Object)
  mutableInputs : List (Nat × (Nat × Nat))
  written : List (Nat × Object)
  events : List Nat
  loadedChildObjects : List (Nat × Nat)
deriving DecidableEq, Repr

/-- into_inner: decompose the store; loaded-children metadata keeps only the
version. The protocol knobs and runtime packages are not needed by the
claims and are omitted. -/
def intoInner (ts : TemporaryStore) : InnerTemporaryStore :=
  { inputObjects := ts.inputObjects,
    mutableInputs := ts.mutableInputRefs,
    written := ts.writtenObjects,
    events := ts.userEvents,
    loadedChildObjects := ts.loadedChildObjects.map (fun kv => (kv.1, kv.2.version)) }

/-- Modelled from the spec: the object-change summary passed to the effects
constructor (get_object_changes is defined outside this repository). -/
def getObjectChanges (ts : TemporaryStore) : List Nat :=
  mkeys ts.writtenObjects ++ ts.deletedObjectIds

/-- The TransactionEffects record as filled in by new_from_execution_v2,
which stores its arguments; fields the claims do not touch are omitted.
Modelled from the spec for the constructor living outside this repository. -/
structure TransactionEffects where
  status : Bool
  epoch : Nat
  gasSummary : GasCostSummary
  transactionDigest : Nat
  lamportVersion : Nat
  objectChanges : List Nat
  gasObjectRef : (Nat × Nat × Nat) × Owner
  eventsDigest : Option Nat
  dependencies : List Nat
deriving DecidableEq, Repr

/-- into_effects: stamp versions and previous tx, snapshot the gas coin
post-image (indexing written_objects panics when the coin is missing) or the
zero sentinel for gas-less transactions, build the object changes, decompose
into the inner store and construct the effects; the events digest is None
when the event list is empty and Some of its digest otherwise. The digest
function over events is a parameter (the hash lives outside this file). -/
def intoEffects (eventsDigestFn : List Nat → Nat) (gasCoin : Option Nat)
    (transactionDigest : Nat) (dependencies : List Nat)
    (gasSummary : GasCostSummary) (status : Bool) (epoch : Nat)
    (ts : TemporaryStore) : Option (InnerTemporaryStore × TransactionEffects) :=
  let ts1 := updateVersionAndPreviousTx ts
  match (match gasCoin with
    | some coinId =>
      match mlookup ts1.writtenObjects coinId with
      | some object => some ((object.objId, object.version, object.digest), object.owner)
      | none => none
    | none => some ((0, 0, 0), Owner.addressOwner 0)) with
  | none => none
  | some updatedGasObjectInfo =>
    let objectChanges := getObjectChanges ts1
    let lamportVersion := ts1.lamportTimestamp
    let inner := intoInner ts1
    some (inner,
      { status := status,
        epoch := epoch,
        gasSummary := gasSummary,
        transactionDigest := transactionDigest,
        lamportVersion := lamportVersion,
        objectChanges := objectChanges,
        gasObjectRef := updatedGasObjectInfo,
        eventsDigest :=
          if inner.events.isEmpty then none else some (eventsDigestFn inner.events),
        dependencies := dependencies })

/-! Rosetta account balance handler, translated from
crates/sui-rosetta/src/account.rs (get_sub_account_balances). -/

inductive StakeStatus where
  | pending
  | active (estimatedReward : Nat)
  | unstaked
deriving DecidableEq, Repr

structure StakeEntry where
  stakedSuiId : Nat
  principal : Nat
  status : StakeStatus
deriving DecidableEq, Repr

structure DelegatedStake where
  validatorAddress : Nat
  stakes : List StakeEntry
deriving DecidableEq, Repr

structure SubBalance where
  stakeId : Nat
  validator : Nat
  value : Int
deriving DecidableEq, Repr

structure Amount where
  value : Int
  subBalances : Option (List SubBalance)
deriving DecidableEq, Repr

/-- Modelled from the spec: the Amount constructor for a plain value carries
no sub-balances (Amount::new lives in the types module outside src). -/
def Amount.new (v : Int) : Amount :=
  { value := v, subBalances := none }

/-- Modelled from the spec: the aggregated Amount carries the per-stake
sub-balances and sums their values (Amount::new_from_sub_balances lives in
the types module outside src). -/
def Amount.newFromSubBalances (l : List SubBalance) : Amount :=
  { value := (l.map (fun s => s.value)).sum, subBalances := some l }

inductive SubAccountType where
  | stake
  | pendingStake
  | estimatedReward
deriving DecidableEq, Repr

/-- The loop body of the Stake arm of get_sub_account_balances: push a
sub-balance with the principal for an Active stake, skip anything else. -/
def stakePush (stakes : DelegatedStake) (amounts : List SubBalance)
    (stake : StakeEntry) : List SubBalance :=
  match stake.status with
  | StakeStatus.active _ =>
    amounts ++ [{ stakeId := stake.stakedSuiId,
                  validator := stakes.validatorAddress,
                  value := (stake.principal : Int) }]
  | _ => amounts

/-- The loop body of the PendingStake arm of get_sub_account_balances: push a
sub-balance with the principal for a Pending stake, skip anything else. -/
def pendingPush (stakes : DelegatedStake) (amounts : List SubBalance)
    (stake : StakeEntry) : List SubBalance :=
  match stake.status with
  | StakeStatus.pending =>
    amounts ++ [{ stakeId := stake.stakedSuiId,
                  validator := stakes.validatorAddress,
                  value := (stake.principal : Int) }]
  | _ => amounts

/-- The loop body of the EstimatedReward arm of get_sub_account_balances:
push a sub-balance with the estimated reward for an Active stake. -/
def rewardPush (stakes : DelegatedStake) (amounts : List SubBalance)
    (stake : StakeEntry) : List SubBalance :=
  match stake.status with
  | StakeStatus.active estimatedReward =>
    amounts ++ [{ stakeId := stake.stakedSuiId,
                  validator := stakes.validatorAddress,
                  value := (estimatedReward : Int) }]
  | _ => amounts

/-- get_sub_account_balances: per kind, fold over all delegations and their
stakes pushing a SubBalance for each stake whose status matches; then return
a single zero amount when nothing matched, else a single aggregated amount. -/
def getSubAccountBalances (accountType : SubAccountType)
    (delegations : List DelegatedStake) : List Amount :=
  let amounts : List SubBalance :=
    match accountType with
    | SubAccountType.stake =>
      delegations.foldl
        (fun amounts stakes => stakes.stakes.foldl (stakePush stakes) amounts) []
    | SubAccountType.pendingStake =>
      delegations.foldl
        (fun amounts stakes => stakes.stakes.foldl (pendingPush stakes) amounts) []
    | SubAccountType.estimatedReward =>
      delegations.foldl
        (fun amounts stakes => stakes.stakes.foldl (rewardPush stakes) amounts) []
  if amounts.isEmpty then [Amount.new 0] else [Amount.newFromSubBalances amounts]

/-- A stake matching the Stake kind per the spec sentence: Active status,
reported at its principal. -/
def stakeSel (stakes : DelegatedStake) (stake : StakeEntry) : Option SubBalance :=
  match stake.status with
  | StakeStatus.active _ =>
    some { stakeId := stake.stakedSuiId,
           validator := stakes.validatorAddress,
           value := (stake.principal : Int) }
  | _ => none

/-- A stake matching the PendingStake kind per the spec sentence: Pending
status, reported at its principal. -/
def pendingSel (stakes : DelegatedStake) (stake : StakeEntry) : Option SubBalance :=
  match stake.status with
  | StakeStatus.pending =>
    some { stakeId := stake.stakedSuiId,
           validator := stakes.validatorAddress,
           value := (stake.principal : Int) }
  | _ => none

/-- A stake matching the EstimatedReward kind per the spec sentence: Active
status, reported at its estimated reward. -/
def rewardSel (stakes : DelegatedStake) (stake : StakeEntry) : Option SubBalance :=
  match stake.status with
  | StakeStatus.active estimatedReward =>
    some { stakeId := stake.stakedSuiId,
           validator := stakes.validatorAddress,
           value := (estimatedReward : Int) }
  | _ => none

/-- The sub-balances of the stakes matching the requested sub-account kind,
written directly after the specification sentence: filter the stakes of
every delegation by the matching status, one sub-balance per matching stake
in delegation order. -/
def matchingSubBalances (accountType : SubAccountType)
    (delegations : List DelegatedStake) : List SubBalance :=
  match accountType with
  | SubAccountType.stake =>
    delegations.flatMap (fun stakes => stakes.stakes.filterMap (stakeSel stakes))
  | SubAccountType.pendingStake =>
    delegations.flatMap (fun stakes => stakes.stakes.filterMap (pendingSel stakes))
  | SubAccountType.estimatedReward =>
    delegations.flatMap (fun stakes => stakes.stakes.filterMap (rewardSel stakes))

/-! Concrete fixtures used to evaluate the definitions on explicit inputs. -/

def emptyStore : TemporaryStore :=
  { txDigest := 0, lamportTimestamp := 1, inputObjects := [],
    mutableInputRefs := [], writtenObjects := [], createdObjectIds := [],
    deletedObjectIds := [], objectsModifiedAt := [], userEvents := [],
    loadedChildObjects := [] }

def emptyBacking : BackingStore :=
  { getObject := fun _ => none, getObjectByKey := fun _ _ => none }

def baseObject : Object :=
  { objId := 0, version := 0, digest := 0, previousTransaction := 0,
    storageRebate := 0, owner := Owner.addressOwner 0, data := ObjData.move 0 [] }

def c4Obj : Object := { baseObject with objId := 1 }

def c4Store : TemporaryStore := { emptyStore with writtenObjects := [(1, c4Obj)] }

def c7Obj : Object :=
  { baseObject with
    objId := 7, owner := Owner.addressOwner 1,
    data := ObjData.move 3 [9, 9] }

def c7Store : TemporaryStore := { emptyStore with writtenObjects := [(7, c7Obj)] }

def c3Obj : Object :=
  { baseObject with objId := 1, owner := Owner.immutable, data := ObjData.package [] }

def c3Backing : BackingStore :=
  { getObject := fun n => if n = 1 then some c3Obj else none,
    getObjectByKey := fun _ _ => none }

def c3Store : TemporaryStore := { emptyStore with objectsModifiedAt := [(1, (0, 0))] }

def c2Obj1 : Object := { baseObject with objId := 1, owner := Owner.objectOwner 5 }

def c2Obj2 : Object := { baseObject with objId := 2, owner := Owner.objectOwner 5 }

def c2Backing : BackingStore :=
  { getObject := fun n =>
      if n = 1 then some c2Obj1 else if n = 2 then some c2Obj2 else none,
    getObjectByKey := fun _ _ => none }

def c2Store : TemporaryStore :=
  { emptyStore with objectsModifiedAt := [(1, (0, 0)), (2, (0, 0))] }

def c2FinalState : AuthState :=
  { worklist := [], authenticated := [],
    covered := [(1, 5), (2, 5)], pushLog := [(5, false), (5, false)] }

def gs0 : GasCostSummary :=
  { computationCost := 0, storageCost := 0, storageRebate := 0,
    nonRefundableStorageFee := 0 }

def c9Store : TemporaryStore := { emptyStore with userEvents := [5] }

def c9Inner : InnerTemporaryStore :=
  { inputObjects := [], mutableInputs := [], written := [], events := [5],
    loadedChildObjects := [] }

def c9Effects : TransactionEffects :=
  { status := true, epoch := 0, gasSummary := gs0, transactionDigest := 0,
    lamportVersion := 1, objectChanges := [],
    gasObjectRef := ((0, 0, 0), Owner.addressOwner 0),
    eventsDigest := some 1, dependencies := [] }

def c6Meta : LoadedChildObjectMetadata :=
  { version := 1, digest := 2, storageRebate := 3 }

def c6Store : TemporaryStore :=
  { emptyStore with loadedChildObjects := [(1, c6Meta)] }

def c5Obj : Object := { baseObject with objId := 1 }

def c5Store : TemporaryStore :=
  { emptyStore with inputObjects := [(1, c5Obj)], mutableInputRefs := [(1, (0, 0))] }

def c5StoreOut : TemporaryStore :=
  { c5Store with
    objectsModifiedAt := [(1, (0, 0))], writtenObjects := [(1, c5Obj)] }

def c1Obj : Object := { baseObject with objId := 1, storageRebate := 5 }

def c1Store : TemporaryStore :=
  { emptyStore with
    inputObjects := [(1, c1Obj)],
    objectsModifiedAt := [(1, (0, 0))], writtenObjects := [(1, c1Obj)] }

def gs1 : GasCostSummary :=
  { computationCost := 3, storageCost := 5, storageRebate := 5,
    nonRefundableStorageFee := 0 }

def c10ObjIn1 : Object :=
  { baseObject with objId := 1, storageRebate := 7, data := ObjData.move 0 [1, 2] }

def c10ObjOut1 : Object :=
  { baseObject with objId := 1, storageRebate := 0, data := ObjData.move 0 [1, 2, 3] }

def c10ObjOut2 : Object :=
  { baseObject with objId := 2, storageRebate := 0, data := ObjData.move 0 [4] }

def c10ObjIn3 : Object :=
  { baseObject with objId := 3, storageRebate := 4, data := ObjData.move 0 [] }

def c10ObjOut1b : Object :=
  { baseObject with objId := 1, storageRebate := 10, data := ObjData.move 0 [1, 2, 3] }

def c10ObjOut2b : Object :=
  { baseObject with objId := 2, storageRebate := 1, data := ObjData.move 0 [4] }

def c10Store : TemporaryStore :=
  { emptyStore with
    inputObjects := [(1, c10ObjIn1), (3, c10ObjIn3)],
    writtenObjects := [(1, c10ObjOut1), (2, c10ObjOut2)],
    objectsModifiedAt := [(1, (0, 0)), (3, (0, 0))] }

def c10StoreOut : TemporaryStore :=
  { c10Store with writtenObjects := [(1, c10ObjOut1b), (2, c10ObjOut2b)] }

/-! Theorems. Each claim of the specification gets one theorem below, with a
witness evaluating it on a concrete input where the theorem has hypotheses. -/

theorem mlookup_minsert_self {α : Type} (l : List (Nat × α)) (k : Nat) (v : α) :
    mlookup (minsert l k v) k = some v := by
  induction l with
  | nil => simp [minsert, mlookup]
  | cons p t ih =>
    simp only [minsert]
    by_cases h1 : k < p.1
    · simp [h1, mlookup]
    · by_cases h2 : k = p.1
      · simp [h1, h2, mlookup]
      · simp [h1, h2, mlookup, ih]

theorem mlookup_minsert_ne {α : Type} (l : List (Nat × α)) (k : Nat) (v : α)
    (x : Nat) (hx : x ≠ k) : mlookup (minsert l k v) x = mlookup l x := by
  induction l with
  | nil => simp [minsert, mlookup, hx]
  | cons p t ih =>
    simp only [minsert]
    by_cases h1 : k < p.1
    · simp [h1, mlookup, hx]
    · by_cases h2 : k = p.1
      · subst h2
        simp [h1, mlookup, hx]
      · simp only [h1, h2, if_false]
        by_cases h3 : x = p.1
        · simp [mlookup, h3]
        · simp [mlookup, h3, ih]

theorem mem_minsert {α : Type} (l : List (Nat × α)) (k : Nat) (v : α)
    (q : Nat × α) (hq : q ∈ minsert l k v) : q = (k, v) ∨ q ∈ l := by
  induction l with
  | nil => simpa [minsert] using hq
  | cons p t ih =>
    simp only [minsert] at hq
    by_cases h1 : k < p.1
    · rw [if_pos h1] at hq
      rcases List.mem_cons.mp hq with h | h
      · exact Or.inl h
      · exact Or.inr h
    · by_cases h2 : k = p.1
      · rw [if_neg h1, if_pos h2] at hq
        rcases List.mem_cons.mp hq with h | h
        · exact Or.inl h
        · exact Or.inr (List.mem_cons_of_mem _ h)
      · rw [if_neg h1, if_neg h2] at hq
        rcases List.mem_cons.mp hq with h | h
        · exact Or.inr (h ▸ List.mem_cons_self _ _)
        · rcases ih h with h3 | h3
          · exact Or.inl h3
          · exact Or.inr (List.mem_cons_of_mem _ h3)

theorem msorted_cons_of {α : Type} (p : Nat × α) (t : List (Nat × α))
    (h1 : msorted t = true) (h2 : ∀ q ∈ t, p.1 < q.1) :
    msorted (p :: t) = true := by
  cases t with
  | nil => simp [msorted]
  | cons q t2 =>
    simp only [msorted, Bool.and_eq_true, decide_eq_true_eq]
    exact ⟨h2 q (List.mem_cons_self _ _), h1⟩

theorem msorted_cons {α : Type} (p : Nat × α) (t : List (Nat × α))
    (h : msorted (p :: t) = true) :
    msorted t = true ∧ ∀ q ∈ t, p.1 < q.1 := by
  induction t generalizing p with
  | nil => simp [msorted]
  | cons q t2 ih =>
    simp only [msorted, Bool.and_eq_true, decide_eq_true_eq] at h
    obtain ⟨hpq, hs⟩ := h
    obtain ⟨hs2, hall⟩ := ih q hs
    refine ⟨hs, ?_⟩
    intro r hr
    rcases List.mem_cons.mp hr with h | h
    · exact h ▸ hpq
    · exact Nat.lt_trans hpq (hall r h)

theorem msorted_minsert {α : Type} (l : List (Nat × α)) (k : Nat) (v : α)
    (h : msorted l = true) : msorted (minsert l k v) = true := by
  induction l with
  | nil => simp [minsert, msorted]
  | cons p t ih =>
    obtain ⟨ht, hall⟩ := msorted_cons p t h
    simp only [minsert]
    by_cases h1 : k < p.1
    · simp only [h1, if_true]
      refine msorted_cons_of _ _ h ?_
      intro q hq
      rcases List.mem_cons.mp hq with h2 | h2
      · exact h2 ▸ h1
      · exact Nat.lt_trans h1 (hall q h2)
    · by_cases h2 : k = p.1
      · rw [if_neg h1, if_pos h2]
        subst h2
        exact msorted_cons_of _ _ ht hall
      · rw [if_neg h1, if_neg h2]
        refine msorted_cons_of _ _ (ih ht) ?_
        intro q hq
        rcases mem_minsert t k v q hq with h3 | h3
        · have : p.1 < k := by omega
          exact h3 ▸ this
        · exact hall q h3

theorem mlookup_none_of_lt {α : Type} (l : List (Nat × α)) (k : Nat)
    (h : ∀ q ∈ l, k < q.1) : mlookup l k = none := by
  induction l with
  | nil => rfl
  | cons p t ih =>
    have hk : k ≠ p.1 := Nat.ne_of_lt (h p (List.mem_cons_self _ _))
    simp only [mlookup, hk, if_false]
    exact ih (fun q hq => h q (List.mem_cons_of_mem _ hq))

theorem mem_of_mlookup {α : Type} (l : List (Nat × α)) (k : Nat) (v : α)
    (h : mlookup l k = some v) : (k, v) ∈ l := by
  induction l with
  | nil => simp [mlookup] at h
  | cons p t ih =>
    simp only [mlookup] at h
    by_cases h1 : k = p.1
    · simp only [h1, if_true] at h
      obtain rfl := Option.some.inj h
      exact h1 ▸ List.mem_cons_self _ _
    · simp only [h1, if_false] at h
      exact List.mem_cons_of_mem _ (ih h)

theorem mlookup_of_mem_sorted {α : Type} (l : List (Nat × α)) (k : Nat) (v : α)
    (hs : msorted l = true) (h : (k, v) ∈ l) : mlookup l k = some v := by
  induction l with
  | nil => simp at h
  | cons p t ih =>
    obtain ⟨ht, hall⟩ := msorted_cons p t hs
    rcases List.mem_cons.mp h with h1 | h1
    · obtain rfl := h1.symm
      simp [mlookup]
    · have hk : k ≠ p.1 := by
        have := hall _ h1
        omega
      simp only [mlookup, hk, if_false]
      exact ih ht h1

theorem msorted_ext {α : Type} (l1 l2 : List (Nat × α))
    (h1 : msorted l1 = true) (h2 : msorted l2 = true)
    (h : ∀ k, mlookup l1 k = mlookup l2 k) : l1 = l2 := by
  induction l1 generalizing l2 with
  | nil =>
    cases l2 with
    | nil => rfl
    | cons q t2 =>
      exfalso
      have := h q.1
      simp [mlookup] at this
  | cons p t ih =>
    cases l2 with
    | nil =>
      exfalso
      have := h p.1
      simp [mlookup] at this
    | cons q t2 =>
      obtain ⟨ht, hallt⟩ := msorted_cons p t h1
      obtain ⟨ht2, hallt2⟩ := msorted_cons q t2 h2
      have hpq : p.1 = q.1 := by
        by_contra hne
        have hp := h p.1
        have hq := h q.1
        have hqp : q.1 ≠ p.1 := fun hx => hne hx.symm
        simp only [mlookup, if_pos rfl, hne, hqp, if_false] at hp hq
        have hmem1 : (p.1, p.2) ∈ t2 := mem_of_mlookup _ _ _ hp.symm
        have hmem2 : (q.1, q.2) ∈ t := mem_of_mlookup _ _ _ hq
        have hlt1 := hallt2 _ hmem1
        have hlt2 := hallt _ hmem2
        omega
      have hval : p.2 = q.2 := by
        have hp := h p.1
        simp only [mlookup, if_pos rfl, hpq, if_pos rfl] at hp
        exact Option.some.inj hp
      have hpair : p = q := Prod.ext hpq hval
      subst hpair
      refine congrArg (List.cons p) (ih t2 ht ht2 ?_)
      intro k
      by_cases hk : k = p.1
      · subst hk
        rw [mlookup_none_of_lt t _ hallt, mlookup_none_of_lt t2 _ hallt2]
      · have := h k
        simpa [mlookup, hk] using this

theorem mextend_cons {α : Type} (l : List (Nat × α)) (p : Nat × α)
    (m : List (Nat × α)) :
    mextend l (p :: m) = mextend (minsert l p.1 p.2) m := by
  simp [mextend, List.foldl]

theorem mlookup_mextend {α : Type} (m l : List (Nat × α)) (k : Nat) :
    mlookup (mextend l m) k =
      match lastLookup m k with
      | some w => some w
      | none => mlookup l k := by
  induction m generalizing l with
  | nil => simp [mextend, lastLookup]
  | cons p t ih =>
    rw [mextend_cons, ih]
    cases hl : lastLookup t k with
    | some w => simp [lastLookup, hl]
    | none =>
      simp only [lastLookup, hl]
      by_cases hk : k = p.1
      · subst hk
        simp [mlookup_minsert_self]
      · simp [mlookup_minsert_ne _ _ _ _ hk, hk]

theorem msorted_mextend {α : Type} (m l : List (Nat × α))
    (h : msorted l = true) : msorted (mextend l m) = true := by
  induction m generalizing l with
  | nil => simpa [mextend]
  | cons p t ih =>
    rw [mextend_cons]
    exact ih _ (msorted_minsert _ _ _ h)

theorem lastLookup_none_of_lt {α : Type} (l : List (Nat × α)) (k : Nat)
    (h : ∀ q ∈ l, k < q.1) : lastLookup l k = none := by
  induction l with
  | nil => rfl
  | cons p t ih =>
    have hk : k ≠ p.1 := Nat.ne_of_lt (h p (List.mem_cons_self _ _))
    simp only [lastLookup, ih (fun q hq => h q (List.mem_cons_of_mem _ hq)), hk, if_false]

theorem lastLookup_eq_mlookup {α : Type} (l : List (Nat × α)) (k : Nat)
    (hs : msorted l = true) : lastLookup l k = mlookup l k := by
  induction l with
  | nil => rfl
  | cons p t ih =>
    obtain ⟨ht, hall⟩ := msorted_cons p t hs
    by_cases hk : k = p.1
    · subst hk
      have hnone : lastLookup t p.1 = none :=
        lastLookup_none_of_lt t _ hall
      simp [lastLookup, mlookup, hnone]
    · simp only [lastLookup, mlookup, hk, if_false, ih ht]
      cases mlookup t k <;> simp

/-- C4: for every ObjectID not in deleted_object_ids, read_object returns the
written post-image when one exists, otherwise the input pre-image when one
exists, otherwise none. The backing store is never consulted: readObject is
a function of the written and input maps only and takes no BackingStore. -/
theorem readObject_spec (ts : TemporaryStore) (id : Nat)
    (_hnd : ts.deletedObjectIds.contains id = false) :
    (∀ o, mlookup ts.writtenObjects id = some o → readObject ts id = some o) ∧
    (mlookup ts.writtenObjects id = none →
      readObject ts id = mlookup ts.inputObjects id) ∧
    (mlookup ts.writtenObjects id = none → mlookup ts.inputObjects id = none →
      readObject ts id = none) := by
  refine ⟨?_, ?_, ?_⟩
  · intro o h
    simp [readObject, h]
  · intro h
    simp [readObject, h]
  · intro h1 h2
    simp [readObject, h1, h2]

/-- Witness for C4 on a concrete store: id 1 is not deleted and is served
from the written post-image. -/
theorem readObject_spec_witness :
    c4Store.deletedObjectIds.contains 1 = false ∧ readObject c4Store 1 = some c4Obj :=
  ⟨by decide, (readObject_spec c4Store 1 (by decide)).1 c4Obj (by decide)⟩

/-- C7 counterexample: a mutable Move object written at address 7 is found by
read_object (the very lookup the fallback branch repeats), yet get_resource
returns its contents with no ExecutionInvariantViolation: the mutable
candidate guard sits in a fallback arm that can never see a candidate. -/
theorem getResource_mutable_counterexample :
    readObject c7Store 7 = some c7Obj ∧ c7Obj.isImmutable = false ∧
    getResource c7Store 7 3 = some (Except.ok (some [9, 9])) :=
  ⟨rfl, rfl, rfl⟩

/-- C7 amended: because the fallback branch repeats the identical read_object
lookup, a candidate can never be found only in the fallback branch, and
get_resource never signals ExecutionInvariantViolation on any input. -/
theorem getResource_never_invariant_violation (ts : TemporaryStore)
    (address structTag : Nat) :
    getResource ts address structTag ≠
      some (Except.error SuiErr.executionInvariantViolation) := by
  unfold getResource getResourceCandidate
  cases h : readObject ts address with
  | none => simp [h]
  | some x =>
    simp only [h]
    cases hd : x.data with
    | move tag contents =>
      by_cases ht : tag = structTag
      · simp [ht]
      · simp [ht]
    | package modules => simp

/-- A fold that pushes an element for each item accepted by an
Option-returning selector equals appending the filterMap of the selector. -/
theorem foldl_push_filterMap {α β : Type} (f : α → Option β) (l : List α)
    (acc : List β) (step : List β → α → List β)
    (hstep : ∀ a x, step a x = match f x with | some y => a ++ [y] | none => a) :
    l.foldl step acc = acc ++ l.filterMap f := by
  induction l generalizing acc with
  | nil => simp
  | cons x t ih =>
    rw [List.foldl_cons, hstep, ih]
    cases h : f x with
    | none => simp [List.filterMap_cons, h]
    | some y => simp [List.filterMap_cons, h]

/-- A double fold over delegations and their stakes that pushes one element
per accepted stake equals appending the flatMap of the per-delegation
filterMap. -/
theorem foldl_foldl_push_flatMap {α β γ : Type} (f : α → β → Option γ)
    (stakesOf : α → List β) (step : α → List γ → β → List γ)
    (hstep : ∀ d a s, step d a s = match f d s with | some y => a ++ [y] | none => a)
    (l : List α) (acc : List γ) :
    l.foldl (fun amounts d => (stakesOf d).foldl (step d) amounts) acc =
      acc ++ l.flatMap (fun d => (stakesOf d).filterMap (f d)) := by
  induction l generalizing acc with
  | nil => simp
  | cons d t ih =>
    rw [List.foldl_cons, foldl_push_filterMap (f d) (stakesOf d) acc (step d) (hstep d),
      ih]
    simp [List.flatMap_cons, List.append_assoc]

/-- C8: for every sub-account kind, get_sub_account_balances filters the
stakes by the matching status; when no stake matches it returns exactly one
zero amount, and otherwise exactly one aggregated amount carrying one
sub-balance per matching stake (in delegation order). -/
theorem getSubAccountBalances_spec (accountType : SubAccountType)
    (delegations : List DelegatedStake) :
    getSubAccountBalances accountType delegations =
      if (matchingSubBalances accountType delegations).isEmpty then [Amount.new 0]
      else [Amount.newFromSubBalances (matchingSubBalances accountType delegations)] := by
  cases accountType with
  | stake =>
    have hfold := foldl_foldl_push_flatMap stakeSel (fun d => d.stakes) stakePush
      (fun d a s => by cases hs : s.status <;> simp [stakePush, stakeSel, hs])
      delegations []
    simp only [List.nil_append] at hfold
    unfold getSubAccountBalances matchingSubBalances
    rw [hfold]
  | pendingStake =>
    have hfold := foldl_foldl_push_flatMap pendingSel (fun d => d.stakes) pendingPush
      (fun d a s => by cases hs : s.status <;> simp [pendingPush, pendingSel, hs])
      delegations []
    simp only [List.nil_append] at hfold
    unfold getSubAccountBalances matchingSubBalances
    rw [hfold]
  | estimatedReward =>
    have hfold := foldl_foldl_push_flatMap rewardSel (fun d => d.stakes) rewardPush
      (fun d a s => by cases hs : s.status <;> simp [rewardPush, rewardSel, hs])
      delegations []
    simp only [List.nil_append] at hfold
    unfold getSubAccountBalances matchingSubBalances
    rw [hfold]

/-- C3: for a modified id that is neither authenticated by Phase A nor a gas
coin and whose pre-image owner in the backing store is Immutable, Phase B of
the ownership authenticator succeeds (does not panic) exactly when the
transaction is an epoch change and the id is a system package. -/
theorem phaseB_immutable_spec (store : BackingStore) (ts : TemporaryStore)
    (sender : Nat) (gasObjs : List Nat) (isEpochChange : Bool)
    (isSystemPkg : Nat → Bool) (id : Nat) (obj : Object)
    (authenticatedObjs : List Nat)
    (hA : phaseA ts.inputObjects sender gasObjs = some authenticatedObjs)
    (hna : authenticatedObjs.contains id = false)
    (hng : gasObjs.contains id = false)
    (hm : mkeys ts.objectsModifiedAt = [id])
    (hs : store.getObject id = some obj)
    (ho : obj.owner = Owner.immutable) :
    (getObjectsToAuthenticate store ts sender gasObjs isEpochChange isSystemPkg).isSome
      = true ↔ (isEpochChange = true ∧ isSystemPkg id = true) := by
  unfold getObjectsToAuthenticate
  rw [hA, hm]
  simp only [List.foldlM_cons, List.foldlM_nil]
  unfold phaseBStep
  rw [hna, hng, hs]
  cases isEpochChange with
  | false => simp [ho]
  | true =>
    cases hsp : isSystemPkg id with
    | false => simp [ho, hsp]
    | true => simp [ho, hsp]

/-- Witness for C3 on concrete data: id 1 is modified, its pre-image is an
immutable package, the transaction is an epoch change and the system-package
predicate accepts it, so the check succeeds. -/
theorem phaseB_immutable_spec_witness :
    (getObjectsToAuthenticate c3Backing c3Store 0 [] true (fun _ => true)).isSome
      = true := by
  have h := phaseB_immutable_spec c3Backing c3Store 0 [] true (fun _ => true) 1 c3Obj []
    (by rfl) (by rfl) (by rfl) (by rfl) (by rfl) (by rfl)
  exact h.mpr ⟨rfl, rfl⟩

/-- C9: whenever into_effects succeeds, the events digest stored in the
transaction effects is None exactly when the accumulated user_events list is
empty, and otherwise is Some of the digest of those events. -/
theorem intoEffects_events_digest (eventsDigestFn : List Nat → Nat)
    (gasCoin : Option Nat) (transactionDigest : Nat) (dependencies : List Nat)
    (gasSummary : GasCostSummary) (status : Bool) (epoch : Nat)
    (ts : TemporaryStore) (inner : InnerTemporaryStore)
    (effects : TransactionEffects)
    (h : intoEffects eventsDigestFn gasCoin transactionDigest dependencies
      gasSummary status epoch ts = some (inner, effects)) :
    (effects.eventsDigest = none ↔ ts.userEvents = []) ∧
    (ts.userEvents ≠ [] →
      effects.eventsDigest = some (eventsDigestFn ts.userEvents)) := by
  have hev : (intoInner (updateVersionAndPreviousTx ts)).events = ts.userEvents := rfl
  cases gasCoin with
  | none =>
    simp only [intoEffects, Option.some.injEq, Prod.mk.injEq] at h
    obtain ⟨h1, h2⟩ := h
    subst h2
    simp only [hev]
    cases hue : ts.userEvents with
    | nil => simp
    | cons e rest => simp
  | some coinId =>
    simp only [intoEffects] at h
    cases hmc : mlookup (updateVersionAndPreviousTx ts).writtenObjects coinId with
    | none =>
      rw [hmc] at h
      simp at h
    | some o =>
      rw [hmc] at h
      simp only [Option.some.injEq, Prod.mk.injEq] at h
      obtain ⟨h1, h2⟩ := h
      subst h2
      simp only [hev]
      cases hue : ts.userEvents with
      | nil => simp
      | cons e rest => simp

/-- Witness for C9 on concrete data: one accumulated event, so the effects
carry Some digest. -/
theorem intoEffects_events_digest_witness :
    c9Store.userEvents ≠ [] ∧
    c9Effects.eventsDigest = some (List.length c9Store.userEvents) :=
  ⟨by decide,
    (intoEffects_events_digest (fun l => List.length l) none 0 [] gs0 true 0
      c9Store c9Inner c9Effects (by rfl)).2 (by decide)⟩

/-- C2 counterexample: ids 1 and 2 are modified children of parent 5 whose
pre-image is absent from the backing store. The walk terminates and returns
Ok, but id 5 is pushed onto the objects_to_authenticate worklist twice: the
skipped parent is never recorded in the covered map, so the covered-map
guard does not stop the second enqueue. -/
theorem checkOwnership_double_enqueue_counterexample :
    checkOwnershipInvariants c2Backing c2Store 0 [] false (fun _ => false) 10
      = some c2FinalState ∧
    (c2FinalState.pushLog.map Prod.fst).count 5 = 2 := by
  refine ⟨by rfl, by rfl⟩

/-- Every push performed by the Phase C walk is of an id that is not in the
covered map at the moment of the push (entries of the push log carry that
covered flag); pushes recorded before the walk are untouched. -/
theorem authLoop_pushes_uncovered (store : BackingStore) (fuel : Nat)
    (st st1 : AuthState) (h : authLoop store fuel st = some st1) :
    ∀ p ∈ st1.pushLog, p ∈ st.pushLog ∨ p.2 = false := by
  induction fuel generalizing st with
  | zero =>
    cases hw : st.worklist with
    | nil =>
      rw [show st = { st with worklist := [] } by rw [← hw]] at h
      simp only [authLoop] at h
      obtain rfl := Option.some.inj h
      intro p hp
      exact Or.inl hp
    | cons x rest =>
      rw [show st = { st with worklist := x :: rest } by rw [← hw]] at h
      simp only [authLoop] at h
      exact absurd h (by simp)
  | succ fuel ih =>
    cases hw : st.worklist with
    | nil =>
      rw [show st = { st with worklist := [] } by rw [← hw]] at h
      simp only [authLoop] at h
      obtain rfl := Option.some.inj h
      intro p hp
      exact Or.inl hp
    | cons x rest =>
      rw [show st = { st with worklist := x :: rest } by rw [← hw]] at h
      simp only [authLoop] at h
      split at h
      · intro p hp
        exact ih _ h p hp
      · split at h
        · split at h
          · intro p hp
            exact ih _ h p hp
          · split at h
            · rename_i oo oldObj heqObj ow parent heqOwn hnauth hcov
              have hcov2 : mcontains st.covered parent = false := by
                simpa using hcov
              intro p hp
              rcases ih _ h p hp with hmem | hfalse
              · rcases List.mem_append.mp hmem with hmem2 | hmem2
                · exact Or.inl hmem2
                · right
                  have hp2 := List.mem_singleton.mp hmem2
                  rw [hp2, hcov2]
              · exact Or.inr hfalse
            · intro p hp
              exact ih _ h p hp
        · simp at h

/-- C2 amended: the covered-map guard guarantees that no id already present
in the covered map is ever enqueued during the Phase C walk; every entry of
the push log of a completed check has its covered-at-push flag false. The
at-most-once bound of the claim does not hold (see the counterexample). -/
theorem checkOwnership_pushes_uncovered (store : BackingStore)
    (ts : TemporaryStore) (sender : Nat) (gasObjs : List Nat)
    (isEpochChange : Bool) (isSystemPkg : Nat → Bool) (fuel : Nat)
    (st1 : AuthState)
    (h : checkOwnershipInvariants store ts sender gasObjs isEpochChange
      isSystemPkg fuel = some st1) :
    ∀ p ∈ st1.pushLog, p.2 = false := by
  unfold checkOwnershipInvariants at h
  cases hg : getObjectsToAuthenticate store ts sender gasObjs isEpochChange isSystemPkg with
  | none =>
    rw [hg] at h
    simp at h
  | some pair =>
    rw [hg] at h
    intro p hp
    rcases authLoop_pushes_uncovered store fuel _ st1 h p hp with hmem | hfalse
    · simp at hmem
    · exact hfalse

/-- Witness for the amended C2 theorem on the concrete double-enqueue run:
both log entries carry a false covered-at-push flag. -/
theorem checkOwnership_pushes_uncovered_witness :
    checkOwnershipInvariants c2Backing c2Store 0 [] false (fun _ => false) 10
      = some c2FinalState ∧ ((5, false) : Nat × Bool).2 = false :=
  ⟨by rfl,
    checkOwnership_pushes_uncovered c2Backing c2Store 0 [] false (fun _ => false) 10
      c2FinalState (by rfl) (5, false) (by decide)⟩

/-- C6: save_loaded_child_objects is idempotent: for every incoming map
whose entries agree with the stored loaded_child_objects on colliding keys,
the first call succeeds, and repeating the call leaves the store in exactly
the state the single call produced. -/
theorem saveLoadedChildObjects_idempotent (ts : TemporaryStore)
    (m : List (Nat × LoadedChildObjectMetadata))
    (hts : msorted ts.loadedChildObjects = true) (hm : msorted m = true)
    (hagree : ∀ kv ∈ m, ∀ v2, mlookup ts.loadedChildObjects kv.1 = some v2 →
      kv.2 = v2) :
    ∃ ts1, saveLoadedChildObjects ts m = some ts1 ∧
      saveLoadedChildObjects ts1 m = some ts1 := by
  have hc1 : childMetaAgrees ts.loadedChildObjects m = true := by
    unfold childMetaAgrees
    rw [List.all_eq_true]
    intro kv hkv
    cases hl : mlookup ts.loadedChildObjects kv.1 with
    | none => simp
    | some v2 => simpa using hagree kv hkv v2 hl
  have hc2 : childMetaAgrees m ts.loadedChildObjects = true := by
    unfold childMetaAgrees
    rw [List.all_eq_true]
    intro kv hkv
    cases hl : mlookup m kv.1 with
    | none => simp
    | some v2 =>
      have hmem : (kv.1, v2) ∈ m := mem_of_mlookup _ _ _ hl
      have hlk : mlookup ts.loadedChildObjects kv.1 = some kv.2 :=
        mlookup_of_mem_sorted _ _ _ hts hkv
      have := hagree (kv.1, v2) hmem kv.2 hlk
      simpa using this.symm
  have h1 : saveLoadedChildObjects ts m =
      some { ts with loadedChildObjects := mextend ts.loadedChildObjects m } := by
    unfold saveLoadedChildObjects
    rw [hc1, hc2]
    rfl
  have hsx : msorted (mextend ts.loadedChildObjects m) = true :=
    msorted_mextend _ _ hts
  have hlkx : ∀ k, mlookup (mextend ts.loadedChildObjects m) k =
      match mlookup m k with
      | some w => some w
      | none => mlookup ts.loadedChildObjects k := by
    intro k
    rw [mlookup_mextend, lastLookup_eq_mlookup _ _ hm]
    cases mlookup m k <;> rfl
  have hc3 : childMetaAgrees (mextend ts.loadedChildObjects m) m = true := by
    unfold childMetaAgrees
    rw [List.all_eq_true]
    intro kv hkv
    have hmk : mlookup m kv.1 = some kv.2 := mlookup_of_mem_sorted _ _ _ hm hkv
    rw [hlkx kv.1, hmk]
    simp
  have hc4 : childMetaAgrees m (mextend ts.loadedChildObjects m) = true := by
    unfold childMetaAgrees
    rw [List.all_eq_true]
    intro kv hkv
    cases hl : mlookup m kv.1 with
    | none => simp
    | some v2 =>
      have hself : mlookup (mextend ts.loadedChildObjects m) kv.1 = some kv.2 :=
        mlookup_of_mem_sorted _ _ _ hsx hkv
      rw [hlkx kv.1, hl] at hself
      simpa using (Option.some.inj hself).symm
  have hext : mextend (mextend ts.loadedChildObjects m) m =
      mextend ts.loadedChildObjects m := by
    refine msorted_ext _ _ (msorted_mextend _ _ hsx) hsx ?_
    intro k
    rw [mlookup_mextend, lastLookup_eq_mlookup _ _ hm, hlkx k]
    cases mlookup m k <;> rfl
  refine ⟨{ ts with loadedChildObjects := mextend ts.loadedChildObjects m }, h1, ?_⟩
  unfold saveLoadedChildObjects
  simp only
  rw [hc3, hc4]
  simp only [Bool.and_self, if_true]
  rw [hext]

/-- Witness for C6 on concrete data: the incoming map repeats the stored
entry, the first call succeeds, and the second call on its result returns
the same state. -/
theorem saveLoadedChildObjects_idempotent_witness :
    (match saveLoadedChildObjects c6Store [(1, c6Meta)] with
      | some ts1 => saveLoadedChildObjects ts1 [(1, c6Meta)] = some ts1
      | none => False) := by
  obtain ⟨ts1, hfirst, hsecond⟩ :=
    saveLoadedChildObjects_idempotent c6Store [(1, c6Meta)] (by rfl) (by rfl)
      (by
        intro kv hkv v2 hl
        have hkv2 := List.mem_singleton.mp hkv
        subst hkv2
        simp [mlookup] at hl
        exact hl)
  rw [hfirst]
  exact hsecond

theorem omapM_forall2 {α β : Type} (f : α → Option β) (l : List α)
    (r : List β) (h : omapM f l = some r) :
    List.Forall₂ (fun a b => f a = some b) l r := by
  induction l generalizing r with
  | nil =>
    simp only [omapM] at h
    obtain rfl := Option.some.inj h
    exact List.Forall₂.nil
  | cons x t ih =>
    simp only [omapM] at h
    cases hx : f x with
    | none => rw [hx] at h; simp at h
    | some y =>
      rw [hx] at h
      cases ht : omapM f t with
      | none => rw [ht] at h; simp at h
      | some rt =>
        rw [ht] at h
        obtain rfl := Option.some.inj h
        exact List.Forall₂.cons hx (ih rt ht)

theorem forall2_map_right_eq {α β : Type} (R : α → β → Prop) (g : β → α)
    (l : List α) (r : List β) (h : List.Forall₂ R l r)
    (hg : ∀ a b, R a b → g b = a) : r.map g = l := by
  induction h with
  | nil => rfl
  | cons hR hrest ih => simp [ih, hg _ _ hR]

theorem forall2_mem_right {α β : Type} (R : α → β → Prop) (l : List α)
    (r : List β) (h : List.Forall₂ R l r) (b : β) (hb : b ∈ r) :
    ∃ a ∈ l, R a b := by
  induction h with
  | nil => simp at hb
  | cons hR hrest ih =>
    rcases List.mem_cons.mp hb with hb1 | hb1
    · exact ⟨_, List.mem_cons_self _ _, hb1 ▸ hR⟩
    · obtain ⟨a, ha, hab⟩ := ih hb1
      exact ⟨a, List.mem_cons_of_mem _ ha, hab⟩

theorem mkeys_nodup {α : Type} (l : List (Nat × α)) (h : msorted l = true) :
    (mkeys l).Nodup := by
  induction l with
  | nil => exact List.nodup_nil
  | cons p t ih =>
    obtain ⟨ht, hall⟩ := msorted_cons p t h
    refine List.Nodup.cons ?_ (ih ht)
    intro hmem
    obtain ⟨q, hq, hq2⟩ := List.mem_map.mp hmem
    have := hall q hq
    omega

theorem mem_mkeys_of_mcontains {α : Type} (m : List (Nat × α)) (id : Nat)
    (h : mcontains m id = true) : id ∈ mkeys m := by
  unfold mcontains at h
  cases hl : mlookup m id with
  | none => rw [hl] at h; simp at h
  | some v =>
    have := mem_of_mlookup m id v hl
    exact List.mem_map_of_mem Prod.fst this

/-- The effect of folding mutate_input_object over a list of objects with
pairwise distinct ids: mutable input refs are unchanged, ids not in the list
keep their modified-at and written entries, and every folded object lands in
written_objects with its modified-at entry set to its mutable input ref. -/
theorem mutate_fold_spec (objs : List Object) (s s1 : TemporaryStore)
    (h : List.foldlM (fun s object => mutateInputObject s object) s objs = some s1)
    (hnodup : (objs.map Object.objId).Nodup) :
    s1.mutableInputRefs = s.mutableInputRefs ∧
    (∀ k, (∀ o ∈ objs, o.objId ≠ k) →
      mlookup s1.objectsModifiedAt k = mlookup s.objectsModifiedAt k ∧
      mlookup s1.writtenObjects k = mlookup s.writtenObjects k) ∧
    (∀ o ∈ objs, mlookup s1.writtenObjects o.objId = some o ∧
      mlookup s1.objectsModifiedAt o.objId = mlookup s.mutableInputRefs o.objId) := by
  induction objs generalizing s with
  | nil =>
    simp only [List.foldlM_nil] at h
    obtain rfl := Option.some.inj h
    exact ⟨rfl, fun k _ => ⟨rfl, rfl⟩, by simp⟩
  | cons o t ih =>
    simp only [List.foldlM_cons] at h
    cases hmo : mutateInputObject s o with
    | none => rw [hmo] at h; simp at h
    | some s2 =>
      rw [hmo] at h
      have h2 : List.foldlM (fun s object => mutateInputObject s object) s2 t
          = some s1 := h
      simp only [List.map_cons, List.nodup_cons] at hnodup
      obtain ⟨hni, hnodup2⟩ := hnodup
      obtain ⟨hrefs, huntouched, hfolded⟩ := ih s2 h2 hnodup2
      unfold mutateInputObject at hmo
      cases href : mlookup s.mutableInputRefs o.objId with
      | none => rw [href] at hmo; simp at hmo
      | some ref =>
        rw [href] at hmo
        obtain rfl := Option.some.inj hmo
        refine ⟨hrefs, ?_, ?_⟩
        · intro k hk
          have hok : o.objId ≠ k := hk o (List.mem_cons_self _ _)
          have hk2 : ∀ o2 ∈ t, o2.objId ≠ k :=
            fun o2 ho2 => hk o2 (List.mem_cons_of_mem _ ho2)
          obtain ⟨hm2, hw2⟩ := huntouched k hk2
          constructor
          · rw [hm2]
            exact mlookup_minsert_ne _ _ _ _ (fun hx => hok hx.symm)
          · rw [hw2]
            exact mlookup_minsert_ne _ _ _ _ (fun hx => hok hx.symm)
        · intro o2 ho2
          rcases List.mem_cons.mp ho2 with ho3 | ho3
          · subst ho3
            have hnt : ∀ o3 ∈ t, o3.objId ≠ o2.objId := by
              intro o3 ho3 hx
              exact hni (hx ▸ List.mem_map_of_mem Object.objId ho3)
            obtain ⟨hm2, hw2⟩ := huntouched o2.objId hnt
            constructor
            · rw [hw2]
              exact mlookup_minsert_self _ _ _
            · rw [hm2, href]
              exact mlookup_minsert_self _ _ _
          · obtain ⟨hw2, hm2⟩ := hfolded o2 ho3
            refine ⟨hw2, ?_⟩
            rw [hm2]

/-- C5: when ensure_active_inputs_mutated succeeds, every mutable input id is
a key of objects_modified_at; a mutable input id that was not already
modified is pushed unchanged through mutate_input_object, so its input image
appears in written_objects and its mutable-input ref in objects_modified_at;
and ids already in objects_modified_at keep their modified-at and written
entries untouched. -/
theorem ensureActiveInputsMutated_spec (ts ts1 : TemporaryStore)
    (hsorted : msorted ts.mutableInputRefs = true)
    (hkeycons : ∀ id obj, mlookup ts.inputObjects id = some obj → obj.objId = id)
    (h : ensureActiveInputsMutated ts = some ts1) :
    (∀ id, mcontains ts.mutableInputRefs id = true →
      mcontains ts1.objectsModifiedAt id = true) ∧
    (∀ id, mcontains ts.mutableInputRefs id = true →
      mcontains ts.objectsModifiedAt id = false →
      mlookup ts1.writtenObjects id = mlookup ts.inputObjects id ∧
      mlookup ts1.objectsModifiedAt id = mlookup ts.mutableInputRefs id) ∧
    (∀ id, mcontains ts.objectsModifiedAt id = true →
      mlookup ts1.objectsModifiedAt id = mlookup ts.objectsModifiedAt id ∧
      mlookup ts1.writtenObjects id = mlookup ts.writtenObjects id) := by
  unfold ensureActiveInputsMutated at h
  cases hmap : omapM (fun id => mlookup ts.inputObjects id)
      ((mkeys ts.mutableInputRefs).filter
        (fun id => ! mcontains ts.objectsModifiedAt id)) with
  | none => rw [hmap] at h; simp at h
  | some objs =>
    rw [hmap] at h
    have hf2 := omapM_forall2 _ _ _ hmap
    have hids : objs.map Object.objId =
        (mkeys ts.mutableInputRefs).filter
          (fun id => ! mcontains ts.objectsModifiedAt id) :=
      forall2_map_right_eq _ _ _ _ hf2 (fun a b hab => hkeycons a b hab)
    have hnodup : (objs.map Object.objId).Nodup := by
      rw [hids]
      exact List.Nodup.filter _ (mkeys_nodup _ hsorted)
    obtain ⟨hrefs, huntouched, hfolded⟩ := mutate_fold_spec objs ts ts1 h hnodup
    have hinobjs : ∀ o ∈ objs, mlookup ts.inputObjects o.objId = some o := by
      intro o ho
      obtain ⟨a, _, hab⟩ := forall2_mem_right _ _ _ hf2 o ho
      have := hkeycons a o hab
      rw [← this] at hab
      exact hab
    refine ⟨?_, ?_, ?_⟩
    · intro id hid
      by_cases hmod : mcontains ts.objectsModifiedAt id = true
      · have hnotin : ∀ o ∈ objs, o.objId ≠ id := by
          intro o ho hx
          have : o.objId ∈ objs.map Object.objId := List.mem_map_of_mem _ ho
          rw [hids, hx] at this
          have := List.of_mem_filter this
          simp [hmod] at this
        obtain ⟨hm2, _⟩ := huntouched id hnotin
        unfold mcontains at hmod ⊢
        rw [hm2]
        exact hmod
      · have hmem : id ∈ (mkeys ts.mutableInputRefs).filter
            (fun id => ! mcontains ts.objectsModifiedAt id) := by
          refine List.mem_filter.mpr ⟨mem_mkeys_of_mcontains _ _ hid, ?_⟩
          simpa using hmod
        rw [← hids] at hmem
        obtain ⟨o, ho, hoid⟩ := List.mem_map.mp hmem
        obtain ⟨_, hm2⟩ := hfolded o ho
        unfold mcontains at hid ⊢
        rw [hoid] at hm2
        rw [hm2]
        exact hid
    · intro id hid hmod
      have hmem : id ∈ (mkeys ts.mutableInputRefs).filter
          (fun id => ! mcontains ts.objectsModifiedAt id) := by
        refine List.mem_filter.mpr ⟨mem_mkeys_of_mcontains _ _ hid, ?_⟩
        simp [hmod]
      rw [← hids] at hmem
      obtain ⟨o, ho, hoid⟩ := List.mem_map.mp hmem
      obtain ⟨hw2, hm2⟩ := hfolded o ho
      rw [hoid] at hw2 hm2
      constructor
      · rw [hw2]
        have := hinobjs o ho
        rw [hoid] at this
        exact this.symm
      · exact hm2
    · intro id hmod
      have hnotin : ∀ o ∈ objs, o.objId ≠ id := by
        intro o ho hx
        have : o.objId ∈ objs.map Object.objId := List.mem_map_of_mem _ ho
        rw [hids, hx] at this
        have := List.of_mem_filter this
        simp [hmod] at this
      exact huntouched id hnotin

/-- Witness for C5 on concrete data: the single mutable input id 1 was not
modified, and after the call it is in objects_modified_at with its input
image written. -/
theorem ensureActiveInputsMutated_spec_witness :
    ensureActiveInputsMutated c5Store = some c5StoreOut ∧
    mcontains c5StoreOut.objectsModifiedAt 1 = true :=
  ⟨by rfl,
    (ensureActiveInputsMutated_spec c5Store c5StoreOut (by rfl)
      (by
        intro id obj hl
        by_cases hid : id = 1
        · subst hid
          simp [c5Store, emptyStore, mlookup] at hl
          rw [← hl]
          rfl
        · simp [c5Store, emptyStore, mlookup, hid] at hl)
      (by rfl)).1 1 (by rfl)⟩

theorem mcontains_iff_mem_mkeys {α : Type} (l : List (Nat × α)) (k : Nat) :
    mcontains l k = true ↔ k ∈ mkeys l := by
  induction l with
  | nil => simp [mcontains, mlookup, mkeys]
  | cons p t ih =>
    by_cases hk : k = p.1
    · subst hk
      simp [mcontains, mlookup, mkeys]
    · have h1 : mcontains (p :: t) k = mcontains t k := by
        simp [mcontains, mlookup, hk]
      have h2 : k ∈ mkeys (p :: t) ↔ k ∈ mkeys t := by
        simp [mkeys, hk]
      rw [h1, h2]
      exact ih

theorem mcontains_eq_of_mkeys_eq {α β : Type} (l1 : List (Nat × α))
    (l2 : List (Nat × β)) (h : mkeys l1 = mkeys l2) (k : Nat) :
    mcontains l1 k = mcontains l2 k := by
  cases h1 : mcontains l1 k with
  | true =>
    have := (mcontains_iff_mem_mkeys l1 k).mp h1
    rw [h] at this
    exact ((mcontains_iff_mem_mkeys l2 k).mpr this).symm
  | false =>
    cases h2 : mcontains l2 k with
    | false => rfl
    | true =>
      have := (mcontains_iff_mem_mkeys l2 k).mp h2
      rw [← h] at this
      rw [(mcontains_iff_mem_mkeys l1 k).mpr this] at h1
      simp at h1

theorem forall2_zip_map {α β γ : Type} (R : α → β → Prop) (S : α → γ → Prop)
    (g : α × β → γ) (l : List α) (r : List β) (h : List.Forall₂ R l r)
    (hg : ∀ a b, R a b → S a (g (a, b))) :
    List.Forall₂ S l ((l.zip r).map g) := by
  induction h with
  | nil => simp
  | cons hR hrest ih =>
    rw [List.zip_cons_cons, List.map_cons]
    exact List.Forall₂.cons (hg _ _ hR) ih

/-- The effect of the collect_rebate fold over the modified-at entries: it
appends one (0, old_rebate) charger call per modified id absent from
written_objects, in order. -/
theorem collectRebate_fold_spec (store : BackingStore) (ts1 : TemporaryStore)
    (entries : List (Nat × (Nat × Nat))) (acc out : List (Nat × Nat))
    (h : List.foldlM
      (fun log kv =>
        if mcontains ts1.writtenObjects kv.1 then
          some log
        else
          match getInputStorageRebate store ts1 kv.1 kv.2.1 with
          | some storageRebate => some (log ++ [(0, storageRebate)])
          | none => none)
      acc entries = some out) :
    ∃ tail, out = acc ++ tail ∧
      List.Forall₂
        (fun kv e => e.1 = 0 ∧
          getInputStorageRebate store ts1 kv.1 kv.2.1 = some e.2)
        (entries.filter (fun kv => ! mcontains ts1.writtenObjects kv.1)) tail := by
  induction entries generalizing acc with
  | nil =>
    simp only [List.foldlM_nil] at h
    obtain rfl := Option.some.inj h
    exact ⟨[], by simp⟩
  | cons kv t ih =>
    simp only [List.foldlM_cons] at h
    by_cases hw : mcontains ts1.writtenObjects kv.1 = true
    · rw [if_pos hw] at h
      have h2 : List.foldlM
          (fun log kv =>
            if mcontains ts1.writtenObjects kv.1 then
              some log
            else
              match getInputStorageRebate store ts1 kv.1 kv.2.1 with
              | some storageRebate => some (log ++ [(0, storageRebate)])
              | none => none)
          acc t = some out := h
      obtain ⟨tail, hout, hf⟩ := ih acc h2
      refine ⟨tail, hout, ?_⟩
      rw [List.filter_cons_of_neg (by simp [hw])]
      exact hf
    · rw [if_neg hw] at h
      cases hr : getInputStorageRebate store ts1 kv.1 kv.2.1 with
      | none =>
        rw [hr] at h
        simp at h
      | some storageRebate =>
        rw [hr] at h
        have h2 : List.foldlM
            (fun log kv =>
              if mcontains ts1.writtenObjects kv.1 then
                some log
              else
                match getInputStorageRebate store ts1 kv.1 kv.2.1 with
                | some storageRebate => some (log ++ [(0, storageRebate)])
                | none => none)
            (acc ++ [(0, storageRebate)]) t = some out := h
        obtain ⟨tail, hout, hf⟩ := ih _ h2
        refine ⟨(0, storageRebate) :: tail, by simpa [List.append_assoc] using hout, ?_⟩
        rw [List.filter_cons_of_pos (by simp [hw])]
        exact List.Forall₂.cons ⟨rfl, hr⟩ hf

/-- C10: when collect_storage_and_rebate succeeds, the charger call log is
the written-objects calls followed by the collect_rebate calls: each written
id not in objects_modified_at is charged with old_rebate 0, each written id
in objects_modified_at is charged with the pre-image storage rebate resolved
by get_input_storage_rebate at the recorded version, and each modified id
not written is charged as (0, resolved pre-image rebate). -/
theorem collectStorageAndRebate_spec (store : BackingStore)
    (trackStorageMutation : Nat → Nat → Nat) (ts ts1 : TemporaryStore)
    (log : List (Nat × Nat))
    (h : collectStorageAndRebate store trackStorageMutation ts = some (ts1, log)) :
    ∃ writtenLog rebateLog,
      log = writtenLog ++ rebateLog ∧
      List.Forall₂
        (fun kv e =>
          e.1 = Object.sizeForGasMetering kv.2 ∧
          (mcontains ts.objectsModifiedAt kv.1 = false → e.2 = 0) ∧
          (∀ vd, mlookup ts.objectsModifiedAt kv.1 = some vd →
            getInputStorageRebate store ts kv.1 vd.1 = some e.2))
        ts.writtenObjects writtenLog ∧
      List.Forall₂
        (fun kv e => e.1 = 0 ∧
          getInputStorageRebate store ts kv.1 kv.2.1 = some e.2)
        (ts.objectsModifiedAt.filter
          (fun kv => ! mcontains ts.writtenObjects kv.1)) rebateLog := by
  unfold collectStorageAndRebate at h
  cases homap : omapM
      (fun kv =>
        match mlookup ts.objectsModifiedAt kv.1 with
        | some vd => getInputStorageRebate store ts kv.1 vd.1
        | none => some 0)
      ts.writtenObjects with
  | none => rw [homap] at h; simp at h
  | some oldStorageRebates =>
    rw [homap] at h
    simp only at h
    have hf2 := omapM_forall2 _ _ _ homap
    cases hcr : collectRebate store
        { ts with
          writtenObjects := (ts.writtenObjects.zip oldStorageRebates).map (fun p =>
            (p.1.1, { p.1.2 with
              storageRebate :=
                trackStorageMutation p.1.2.sizeForGasMetering p.2 })) } with
    | none => rw [hcr] at h; simp at h
    | some rebateLog =>
      rw [hcr] at h
      simp only [Option.some.injEq, Prod.mk.injEq] at h
      obtain ⟨hts1, hlog⟩ := h
      refine ⟨(ts.writtenObjects.zip oldStorageRebates).map (fun p =>
        (p.1.2.sizeForGasMetering, p.2)), rebateLog, hlog.symm, ?_, ?_⟩
      · refine forall2_zip_map _ _ _ _ _ hf2 ?_
        intro kv r hr
        refine ⟨rfl, ?_, ?_⟩
        · intro hnm
          unfold mcontains at hnm
          cases hl : mlookup ts.objectsModifiedAt kv.1 with
          | some vd => rw [hl] at hnm; simp at hnm
          | none =>
            rw [hl] at hr
            exact (Option.some.inj hr).symm
        · intro vd hvd
          rw [hvd] at hr
          exact hr
      · have hkeys : mkeys ((ts.writtenObjects.zip oldStorageRebates).map (fun p =>
            (p.1.1, { p.1.2 with
              storageRebate :=
                trackStorageMutation p.1.2.sizeForGasMetering p.2 }))) =
            mkeys ts.writtenObjects := by
          unfold mkeys
          rw [List.map_map]
          have hlen : ts.writtenObjects.length ≤ oldStorageRebates.length := by
            rw [hf2.length_eq]
          have := List.map_fst_zip ts.writtenObjects oldStorageRebates hlen
          calc (ts.writtenObjects.zip oldStorageRebates).map
                (Prod.fst ∘ (fun p => (p.1.1, { p.1.2 with
                  storageRebate :=
                    trackStorageMutation p.1.2.sizeForGasMetering p.2 })))
              = (ts.writtenObjects.zip oldStorageRebates).map
                  (Prod.fst ∘ Prod.fst) := by
                apply List.map_congr_left
                intro p hp
                rfl
            _ = ((ts.writtenObjects.zip oldStorageRebates).map Prod.fst).map
                  Prod.fst := by rw [List.map_map]
            _ = ts.writtenObjects.map Prod.fst := by rw [this]
        unfold collectRebate at hcr
        obtain ⟨tail, hout, hf⟩ := collectRebate_fold_spec _ _ _ _ _ hcr
        rw [List.nil_append] at hout
        subst hout
        have hfilter : (ts.objectsModifiedAt.filter
            (fun kv => ! mcontains ((ts.writtenObjects.zip oldStorageRebates).map (fun p =>
              (p.1.1, { p.1.2 with
                storageRebate :=
                  trackStorageMutation p.1.2.sizeForGasMetering p.2 }))) kv.1)) =
            (ts.objectsModifiedAt.filter
              (fun kv => ! mcontains ts.writtenObjects kv.1)) := by
          apply List.filter_congr
          intro kv hkv
          rw [mcontains_eq_of_mkeys_eq _ _ hkeys]
        rw [hfilter] at hf
        exact hf

/-- Witness for C10 on concrete data: written id 1 is modified (pre-image
rebate 7 from the input map), written id 2 is created (old rebate 0), and
modified id 3 is deleted (collect_rebate call (0, 4)). -/
theorem collectStorageAndRebate_spec_witness :
    collectStorageAndRebate emptyBacking (fun size old => size + old) c10Store
      = some (c10StoreOut, [(3, 7), (1, 0), (0, 4)]) ∧
    ∃ writtenLog rebateLog,
      ([(3, 7), (1, 0), (0, 4)] : List (Nat × Nat)) = writtenLog ++ rebateLog ∧
      writtenLog.length = 2 ∧ rebateLog.length = 1 := by
  refine ⟨by rfl, ?_⟩
  obtain ⟨writtenLog, rebateLog, heq, hf1, hf2⟩ :=
    collectStorageAndRebate_spec emptyBacking (fun size old => size + old)
      c10Store c10StoreOut [(3, 7), (1, 0), (0, 4)] (by rfl)
  refine ⟨writtenLog, rebateLog, heq, ?_, ?_⟩
  · rw [← hf1.length_eq]
    rfl
  · rw [← hf2.length_eq]
    rfl

/-- A fold of wrapping additions equals the plain sum reduced modulo 2 ^ 64,
provided the accumulator starts below the modulus; steps that skip an
element contribute 0. -/
theorem foldl_wadd_eq {γ : Type} (f : γ → Nat) (step : Nat → γ → Nat)
    (hstep : ∀ acc i, step acc i = wadd acc (f i) ∨ (step acc i = acc ∧ f i = 0))
    (l : List γ) (a : Nat) (ha : a < u64Mod) :
    l.foldl step a = (a + (l.map f).sum) % u64Mod := by
  induction l generalizing a with
  | nil =>
    simpa using (Nat.mod_eq_of_lt ha).symm
  | cons i t ih =>
    rw [List.foldl_cons, List.map_cons, List.sum_cons]
    rcases hstep a i with hs | ⟨hs, hf0⟩
    · rw [hs]
      have hlt : wadd a (f i) < u64Mod := by
        unfold wadd u64Mod
        exact Nat.mod_lt _ (by norm_num)
      rw [ih _ hlt]
      unfold wadd
      rw [Nat.mod_add_mod, Nat.add_assoc]
    · rw [hs, hf0, ih _ ha, Nat.zero_add]

/-- C1: with simple conservation checks enabled and the modified-object
stream resolvable (no panic), check_sui_conserved returns Ok exactly when
the conservation equalities over the stream hold: with zero storage cost,
IR equals OR plus the gas storage rebate plus the non-refundable fee;
otherwise IR equals the gas storage rebate plus the non-refundable fee and
the storage cost equals OR. Any mismatch yields an invariant-violation
error; the function borrows the store immutably, so the store is unchanged
by construction. -/
theorem checkSuiConserved_spec (store : BackingStore) (ts : TemporaryStore)
    (gasSummary : GasCostSummary)
    (infos : List (Nat × Option (Nat × Nat) × Option Object))
    (hinfos : getModifiedObjects store ts = some infos)
    (hin : inputRebateSum infos < u64Mod)
    (hout : outputRebateSum infos + gasSummary.storageRebate +
      gasSummary.nonRefundableStorageFee < u64Mod) :
    (checkSuiConserved store ts true gasSummary = some (Except.ok ()) ↔
      (if gasSummary.storageCost = 0 then
        inputRebateSum infos = outputRebateSum infos + gasSummary.storageRebate +
          gasSummary.nonRefundableStorageFee
      else
        inputRebateSum infos = gasSummary.storageRebate +
          gasSummary.nonRefundableStorageFee ∧
        gasSummary.storageCost = outputRebateSum infos)) ∧
    (¬ (if gasSummary.storageCost = 0 then
        inputRebateSum infos = outputRebateSum infos + gasSummary.storageRebate +
          gasSummary.nonRefundableStorageFee
      else
        inputRebateSum infos = gasSummary.storageRebate +
          gasSummary.nonRefundableStorageFee ∧
        gasSummary.storageCost = outputRebateSum infos) →
      ∃ msg, checkSuiConserved store ts true gasSummary =
        some (Except.error (ExecErr.invariantViolation msg))) := by
  have hmod : (0 : Nat) < u64Mod := by
    unfold u64Mod
    norm_num
  unfold checkSuiConserved
  rw [hinfos]
  simp only [Bool.not_true, Bool.false_eq_true, if_false]
  have htir : infos.foldl
      (fun acc i =>
        match i.2.1 with
        | some vr => wadd acc vr.2
        | none => acc) 0 = inputRebateSum infos := by
    rw [foldl_wadd_eq
      (fun i =>
        match i.2.1 with
        | some vr => vr.2
        | none => 0)
      _ (fun acc i => by cases hi : i.2.1 <;> simp [wadd, hi]) infos 0 hmod]
    rw [Nat.zero_add]
    exact Nat.mod_eq_of_lt hin
  have houtlt : outputRebateSum infos < u64Mod := by omega
  have htor : infos.foldl
      (fun acc i =>
        match i.2.2 with
        | some o => wadd acc o.storageRebate
        | none => acc) 0 = outputRebateSum infos := by
    rw [foldl_wadd_eq
      (fun i =>
        match i.2.2 with
        | some o => o.storageRebate
        | none => 0)
      _ (fun acc i => by cases hi : i.2.2 <;> simp [wadd, hi]) infos 0 hmod]
    rw [Nat.zero_add]
    exact Nat.mod_eq_of_lt houtlt
  rw [htir, htor]
  have hw1 : wadd (wadd (outputRebateSum infos) gasSummary.storageRebate)
      gasSummary.nonRefundableStorageFee =
      outputRebateSum infos + gasSummary.storageRebate +
        gasSummary.nonRefundableStorageFee := by
    unfold wadd
    rw [Nat.mod_add_mod]
    exact Nat.mod_eq_of_lt hout
  have hw2 : wadd gasSummary.storageRebate gasSummary.nonRefundableStorageFee =
      gasSummary.storageRebate + gasSummary.nonRefundableStorageFee := by
    unfold wadd
    exact Nat.mod_eq_of_lt (by omega)
  rw [hw1, hw2]
  by_cases hc : gasSummary.storageCost = 0
  · simp only [hc, if_true, if_pos]
    by_cases he : inputRebateSum infos = outputRebateSum infos +
        gasSummary.storageRebate + gasSummary.nonRefundableStorageFee
    · simp [he]
    · refine ⟨by simp [he], fun _ => ?_⟩
      simp only [ne_eq, he, not_false_eq_true, if_true]
      exact ⟨_, rfl⟩
  · simp only [hc, if_false]
    by_cases he1 : inputRebateSum infos = gasSummary.storageRebate +
        gasSummary.nonRefundableStorageFee
    · by_cases he2 : gasSummary.storageCost = outputRebateSum infos
      · simp [he1, he2]
      · refine ⟨by simp [he1, he2], fun _ => ?_⟩
        simp only [ne_eq, he1, not_true_eq_false, if_false, he2, not_false_eq_true,
          if_true]
        exact ⟨_, rfl⟩
    · refine ⟨by simp [he1], fun _ => ?_⟩
      simp only [ne_eq, he1, not_false_eq_true, if_true]
      exact ⟨_, rfl⟩

/-- Witness for C1 on the pure-mutation scenario: one input coin with
storage rebate 5 mutated in place, gas summary with storage cost 5, storage
rebate 5 and no non-refundable fee; the check passes. -/
theorem checkSuiConserved_spec_witness :
    checkSuiConserved emptyBacking c1Store true gs1 = some (Except.ok ()) := by
  refine ((checkSuiConserved_spec emptyBacking c1Store gs1
    [(1, some (0, 5), some c1Obj)] (by rfl) (by decide) (by decide)).1).mpr ?_
  decide
